import Mathlib

/-!
Verification of the text-extraction subsystem of the ATS_AGENT repository.

The development shallowly embeds the pure logic of `src/tools/pdf_utils.py`,
`src/tools/jd_parser.py`, `src/tools/resume_parser.py`, `src/tools/tool_utils.py`
and `src/agents/jd_agent.py`.  Python's `re` module is embedded as a small
backtracking matcher over an abstract-syntax tree of the exact regular
expressions appearing in the source; Python dictionaries are embedded as
association lists with insertion-order/update-in-place semantics; files are
embedded as byte lists together with the text codecs the source tries.
-/

namespace ATS

/-! ## Python string primitives (ASCII model) -/

/-- Whitespace characters recognised by Python's `str.strip()` and `\s` (ASCII). -/
def pySpace (c : Char) : Bool :=
  c = ' ' || c = '\t' || c = '\n' || c = '\r' || c = '\x0b' || c = '\x0c'

/-- Decimal digit, Python `\d` (ASCII). -/
def isDigitChar (c : Char) : Bool :=
  48 ≤ c.toNat && c.toNat ≤ 57

/-- Word character, Python `\w` (ASCII model: letters, digits, underscore). -/
def isWordChar (c : Char) : Bool :=
  (65 ≤ c.toNat && c.toNat ≤ 90) || (97 ≤ c.toNat && c.toNat ≤ 122) ||
    isDigitChar c || c = '_'

/-- ASCII lower-casing of one character, as Python `str.lower()` does for ASCII. -/
def lowerChar (c : Char) : Char :=
  if 65 ≤ c.toNat && c.toNat ≤ 90 then Char.ofNat (c.toNat + 32) else c

/-- ASCII lower-casing of a string (`str.lower()`, ASCII model). -/
def pyLower (s : String) : String :=
  String.mk (s.data.map lowerChar)

/-- Python `str.strip()` on a character list: drop ASCII whitespace at both ends. -/
def pyStripList (l : List Char) : List Char :=
  ((l.dropWhile pySpace).reverse.dropWhile pySpace).reverse

/-- Python `str.strip()`. -/
def pyStrip (s : String) : String :=
  String.mk (pyStripList s.data)

/-- Python `s.split('\n')` on a character list: segments between newline
characters (always at least one, possibly empty, segment). -/
def splitNLList : List Char → List (List Char)
  | [] => [[]]
  | c :: rest =>
    let r := splitNLList rest
    if c = '\n' then [] :: r
    else
      match r with
      | h :: t => (c :: h) :: t
      | [] => [[c]]

/-- Python `s.split('\n')`. -/
def pySplitNL (s : String) : List String :=
  (splitNLList s.data).map String.mk

/-- Python `int(s)` restricted to the unsigned-decimal shape produced by `\d+`
captures in the parser (the source always feeds such captures, pre-stripped). -/
def pyIntParse (s : String) : Option Nat :=
  if s.data ≠ [] && s.data.all isDigitChar then
    some (s.data.foldl (fun n c => n * 10 + (c.toNat - 48)) 0)
  else none

/-! ## Character classes of the source's regular expressions -/

/-- Character classes occurring in the regexes of `jd_parser.py` /
`resume_parser.py`: `\d`, `\w`, `\s`, `.` under `re.DOTALL`, plain `.`,
positive `[...]` classes, negated `[^...]` classes, and negated classes that
additionally exclude `\d` (the bullet pattern's `[^\n•\*\-\d\.]`). -/
inductive CharCls where
  | digit
  | word
  | space
  | dotAll
  | dotNoNL
  | oneOf (cs : List Char)
  | noneOf (cs : List Char)
  | noneOfD (cs : List Char)
deriving DecidableEq

/-- Character equality, optionally case-insensitive (`re.IGNORECASE`, ASCII). -/
def charEq (ic : Bool) (a b : Char) : Bool :=
  if ic then lowerChar a == lowerChar b else a == b

/-- Membership of a character in a class, honouring `re.IGNORECASE`. -/
def clsMatch (ic : Bool) : CharCls → Char → Bool
  | .digit, c => isDigitChar c
  | .word, c => isWordChar c
  | .space, c => pySpace c
  | .dotAll, _ => true
  | .dotNoNL, c => c ≠ '\n'
  | .oneOf cs, c => cs.any (fun x => charEq ic x c)
  | .noneOf cs, c => !(cs.any (fun x => charEq ic x c))
  | .noneOfD cs, c => !(cs.any (fun x => charEq ic x c)) && !(isDigitChar c)

/-! ## Regular-expression syntax

The constructors cover exactly the constructs used by the source's patterns:
literals, single-class atoms, concatenation, alternation, `?`, `*`/`+` over a
single-character class (the only starred bodies occurring in the source),
numbered capture groups, `^`, `$` (Python semantics: end of string or just
before a final newline), and `\b`. -/

inductive RE where
  | epsR
  | lit (s : List Char)
  | cls (c : CharCls)
  | seqR (a b : RE)
  | altR (a b : RE)
  | optR (greedy : Bool) (a : RE)
  | starCls (greedy : Bool) (c : CharCls)
  | plusCls (greedy : Bool) (c : CharCls)
  | groupR (n : Nat) (a : RE)
  | bos
  | eos
  | wordB
deriving DecidableEq

/-- Literal regex from a string. -/
def strL (s : String) : RE := .lit s.data

/-- Concatenation of a pattern list. -/
def seqs : List RE → RE
  | [] => .epsR
  | [a] => a
  | a :: rest => .seqR a (seqs rest)

/-- Alternation of a pattern list (left-to-right preference, as in `re`). -/
def alts : List RE → RE
  | [] => .cls (.oneOf [])
  | [a] => a
  | a :: rest => .altR a (alts rest)

/-! ## Backtracking matcher (continuation-passing) -/

/-- Captured groups: group number to captured characters, last write wins. -/
abbrev Caps := List (Nat × List Char)

/-- Set a capture group. -/
def capSet (cp : Caps) (n : Nat) (v : List Char) : Caps :=
  match cp with
  | [] => [(n, v)]
  | (m, w) :: rest => if m = n then (n, v) :: rest else (m, w) :: capSet rest n v

/-- Continuations receive the previous character (for `\b`), the remaining
input, and the captures so far. -/
abbrev K (σ : Type) := Option Char → List Char → Caps → Option σ

/-- Greedy Kleene star over a single-character class: consume as many matching
characters as possible, backtracking into the continuation. -/
def greedyStarM (ic : Bool) (c : CharCls) (k : K σ) :
    Option Char → List Char → Caps → Option σ
  | p, [], cp => k p [] cp
  | p, x :: xs, cp =>
    if clsMatch ic c x then
      match greedyStarM ic c k (some x) xs cp with
      | some r => some r
      | none => k p (x :: xs) cp
    else k p (x :: xs) cp

/-- Lazy Kleene star over a single-character class: try the continuation first,
consuming a character only on failure. -/
def lazyStarM (ic : Bool) (c : CharCls) (k : K σ) :
    Option Char → List Char → Caps → Option σ
  | p, [], cp => k p [] cp
  | p, x :: xs, cp =>
    match k p (x :: xs) cp with
    | some res => some res
    | none => if clsMatch ic c x then lazyStarM ic c k (some x) xs cp else none

/-- Match a literal character sequence. -/
def matchLit (ic : Bool) (k : K σ) :
    List Char → Option Char → List Char → Caps → Option σ
  | [], p, r, cp => k p r cp
  | _ :: _, _, [], _ => none
  | c :: cs, _, x :: xs, cp => if charEq ic c x then matchLit ic k cs (some x) xs cp else none

/-- Word/non-word test for the character on one side of a position. -/
def isWordOpt : Option Char → Bool
  | none => false
  | some c => isWordChar c

/-- The backtracking matcher.  `matchM ic e k p r cp` attempts to match `e` at
the start of `r` (with `p` the character just before `r`, for `^` and `\b`),
calling `k` on every candidate way to match, in the preference order of
Python's `re` engine. -/
def matchM (ic : Bool) : RE → K σ → Option Char → List Char → Caps → Option σ
  | .epsR, k, p, r, cp => k p r cp
  | .lit s, k, p, r, cp => matchLit ic k s p r cp
  | .cls c, k, _, r, cp =>
    match r with
    | [] => none
    | x :: xs => if clsMatch ic c x then k (some x) xs cp else none
  | .seqR a b, k, p, r, cp => matchM ic a (fun p' r' cp' => matchM ic b k p' r' cp') p r cp
  | .altR a b, k, p, r, cp =>
    match matchM ic a k p r cp with
    | some res => some res
    | none => matchM ic b k p r cp
  | .optR g a, k, p, r, cp =>
    if g then
      match matchM ic a k p r cp with
      | some res => some res
      | none => k p r cp
    else
      match k p r cp with
      | some res => some res
      | none => matchM ic a k p r cp
  | .starCls g c, k, p, r, cp =>
    if g then greedyStarM ic c k p r cp else lazyStarM ic c k p r cp
  | .plusCls g c, k, _, r, cp =>
    match r with
    | [] => none
    | x :: xs =>
      if clsMatch ic c x then
        if g then greedyStarM ic c k (some x) xs cp else lazyStarM ic c k (some x) xs cp
      else none
  | .groupR n a, k, p, r, cp =>
    matchM ic a (fun p' r' cp' => k p' r' (capSet cp' n (r.take (r.length - r'.length)))) p r cp
  | .bos, k, p, r, cp =>
    match p with
    | none => k p r cp
    | some _ => none
  | .eos, k, p, r, cp =>
    match r with
    | [] => k p r cp
    | ['\n'] => k p r cp
    | _ => none
  | .wordB, k, p, r, cp =>
    if isWordOpt p != isWordOpt r.head? then k p r cp else none

/-- Attempt a match anchored at the current position; on success return the
previous character at the match end, the remaining input, and the captures. -/
def matchHere (ic : Bool) (e : RE) (p : Option Char) (r : List Char) :
    Option (Option Char × List Char × Caps) :=
  matchM ic e (fun p' r' cp => some (p', r', cp)) p r []

/-- Result of a successful search: characters before the match, the matched
characters (group 0), the captures, the previous character at the match end,
and the characters after the match. -/
structure MRes where
  pre : List Char
  mat : List Char
  caps : Caps
  prevA : Option Char
  rest : List Char
deriving DecidableEq

/-- Leftmost search, as `re.search`: try a match at each position in order;
on success record the skipped characters, the matched characters, and the
state after the match end. -/
def searchA (ic : Bool) (e : RE) : Option Char → List Char → Option MRes
  | p, [] =>
    match matchHere ic e p [] with
    | some (p', r', cp) => some ⟨[], [], cp, p', r'⟩
    | none => none
  | p, x :: xs =>
    match matchHere ic e p (x :: xs) with
    | some (p', r', cp) =>
      some ⟨[], (x :: xs).take ((x :: xs).length - r'.length), cp, p', r'⟩
    | none => (searchA ic e (some x) xs).map (fun m => { m with pre := x :: m.pre })

/-- Python `re.search(pattern, text)`. -/
def reSearch (ic : Bool) (e : RE) (s : String) : Option MRes :=
  searchA ic e none s.data

/-- Captured group `n` of a match, as a string (empty when absent). -/
def MRes.grp (m : MRes) (n : Nat) : String :=
  String.mk ((m.caps.lookup n).getD [])

/-- Matched text (group 0) of a match. -/
def MRes.whole (m : MRes) : String :=
  String.mk m.mat

/-- Scanning loop of `re.findall`: repeated leftmost search, continuing after
each match end (advancing one character past a zero-width match). -/
def findAllAux (ic : Bool) (e : RE) : Option Char → List Char → Nat → List Caps
  | _, _, 0 => []
  | p, r, fuel + 1 =>
    match searchA ic e p r with
    | none => []
    | some m =>
      if m.mat.isEmpty then
        match m.rest with
        | [] => [m.caps]
        | x :: xs => m.caps :: findAllAux ic e (some x) xs fuel
      else m.caps :: findAllAux ic e m.prevA m.rest fuel

/-- Python `re.findall(pattern, text)`, as the capture environments of the
successive non-overlapping matches. -/
def findAll (ic : Bool) (e : RE) (s : String) : List Caps :=
  findAllAux ic e none s.data (s.data.length + 1)

/-- Group `n` of one `findall` tuple. -/
def capStr (cp : Caps) (n : Nat) : String :=
  String.mk ((cp.lookup n).getD [])

/-! ## Python dictionaries

Association lists with Python `dict` semantics: assignment to an existing key
updates the value in place (keeping the key's insertion position), assignment
to a new key appends. -/

/-- Python `d[k] = v`. -/
def assocSet {β : Type} : List (String × β) → String → β → List (String × β)
  | [], k, v => [(k, v)]
  | (k', v') :: rest, k, v =>
    if k' = k then (k', v) :: rest else (k', v') :: assocSet rest k v

/-- Python `d.update(other)` / merging `{**d, **other}`. -/
def assocUpdate {β : Type} (d other : List (String × β)) : List (String × β) :=
  other.foldl (fun acc kv => assocSet acc kv.1 kv.2) d

/-! ## `src/tools/jd_parser.py` — the regular expressions, transcribed -/

/-- Title pattern (a): `(?:Job Title|Position|Role):\s*([^\n]+)`. -/
def titlePat1 : RE :=
  seqs [alts [strL "Job Title", strL "Position", strL "Role"], strL ":",
    .starCls true .space, .groupR 1 (.plusCls true (.noneOf ['\n']))]

/-- Title pattern (b): `^([^:]+?)(?:Job|Position|Role|Overview)`. -/
def titlePat2 : RE :=
  seqs [.bos, .groupR 1 (.plusCls false (.noneOf [':'])),
    alts [strL "Job", strL "Position", strL "Role", strL "Overview"]]

/-- Title pattern (c): `([^:]+?)\s+\d+[\+]?\s+[Yy]ears`. -/
def titlePat3 : RE :=
  seqs [.groupR 1 (.plusCls false (.noneOf [':'])), .plusCls true .space,
    .plusCls true .digit, .optR true (.cls (.oneOf ['+'])), .plusCls true .space,
    .cls (.oneOf ['Y', 'y']), strL "ears"]

/-- Skill-name group `(\w+(?:\s+\w+)?)` of the skill patterns. -/
def skillGroup (n : Nat) : RE :=
  .groupR n (seqs [.plusCls true .word, .optR true (seqs [.plusCls true .space, .plusCls true .word])])

/-- Skills pattern 1: `(\w+(?:\s+\w+)?):\s*(\d+)(?:\+)?\s*(?:years|yrs)`. -/
def skillsPat1 : RE :=
  seqs [skillGroup 1, strL ":", .starCls true .space, .groupR 2 (.plusCls true .digit),
    .optR true (strL "+"), .starCls true .space, alts [strL "years", strL "yrs"]]

/-- Skills pattern 2: `(\w+(?:\s+\w+)?)\s*\((\d+)(?:\+)?\s*(?:years|yrs)?\)`. -/
def skillsPat2 : RE :=
  seqs [skillGroup 1, .starCls true .space, strL "(", .groupR 2 (.plusCls true .digit),
    .optR true (strL "+"), .starCls true .space, .optR true (alts [strL "years", strL "yrs"]),
    strL ")"]

/-- Skills pattern 3: `(\w+(?:\s+\w+)?)\s*(?:with)?\s*(\d+)(?:\+)?\s*(?:years|yrs)`. -/
def skillsPat3 : RE :=
  seqs [skillGroup 1, .starCls true .space, .optR true (strL "with"), .starCls true .space,
    .groupR 2 (.plusCls true .digit), .optR true (strL "+"), .starCls true .space,
    alts [strL "years", strL "yrs"]]

/-- Skills pattern 4 (inverted): `(\d+)(?:\+)?\s*(?:years|yrs)(?:\s*of)?\s*(\w+(?:\s+\w+)?)`. -/
def skillsPat4 : RE :=
  seqs [.groupR 1 (.plusCls true .digit), .optR true (strL "+"), .starCls true .space,
    alts [strL "years", strL "yrs"], .optR true (seqs [.starCls true .space, strL "of"]),
    .starCls true .space, skillGroup 2]

/-- Header alternation of the responsibilities-section pattern
(`Responsibilities|RESPONSIBILITIES|Duties|DUTIES|You will`, case-sensitive:
the search carries no `re.IGNORECASE`). -/
def respHdrAlt : RE :=
  alts [strL "Responsibilities", strL "RESPONSIBILITIES", strL "Duties", strL "DUTIES",
    strL "You will"]

/-- Terminator alternation of the responsibilities-section pattern
(`Requirements|REQUIREMENTS|Qualifications|QUALIFICATIONS|$`). -/
def respStopAlt : RE :=
  alts [strL "Requirements", strL "REQUIREMENTS", strL "Qualifications", strL "QUALIFICATIONS",
    .eos]

/-- Responsibilities-section pattern (searched with `re.DOTALL`, no
`re.IGNORECASE`): matches a case-sensitive header alternation, then a lazy
dot-all run, then the first requirements/qualifications header or `$`. -/
def respSectionPat : RE :=
  seqs [respHdrAlt, .starCls false .dotAll, respStopAlt]

/-- Bullet pattern: `(?:•|\*|\-|\d+\.)\s*([^\n•\*\-\d\.][^\n]+)`. -/
def bulletPat : RE :=
  seqs [alts [strL "•", strL "*", strL "-", seqs [.plusCls true .digit, strL "."]],
    .starCls true .space,
    .groupR 1 (seqs [.cls (.noneOfD ['\n', '•', '*', '-', '.']), .plusCls true (.noneOf ['\n'])])]

/-- Header check of the no-bullet branch: `responsibilities|duties` (IGNORECASE). -/
def respHeaderPat : RE :=
  alts [strL "responsibilities", strL "duties"]

/-- Qualifications-section pattern (searched with `re.DOTALL`, no
`re.IGNORECASE`). -/
def qualSectionPat : RE :=
  seqs [alts [strL "Requirements", strL "REQUIREMENTS", strL "Qualifications",
      strL "QUALIFICATIONS"],
    .starCls false .dotAll,
    alts [strL "Benefits", strL "BENEFITS", .eos]]

/-- Header check of the no-bullet branch: `requirements|qualifications` (IGNORECASE). -/
def qualHeaderPat : RE :=
  alts [strL "requirements", strL "qualifications"]

/-- The fixed vocabulary `common_skills` of `extract_required_skills`. -/
def common_skills : List String :=
  ["Python", "Java", "JavaScript", "TypeScript", "C++", "C#", "PHP", "Ruby", "Go",
   "SQL", "NoSQL", "MongoDB", "PostgreSQL", "MySQL", "Redis", "AWS", "Azure", "GCP",
   "Docker", "Kubernetes", "ML", "AI", "Machine Learning", "Deep Learning", "NLP",
   "React", "Angular", "Vue", "Node.js", "Django", "Flask", "FastAPI", "Spring",
   "DevOps", "CI/CD", "Git", "Jenkins", "Terraform", "Ansible", "Agile", "Scrum"]

/-- Vocabulary probe `r'\b' + re.escape(skill) + r'\b'` (the escape makes the
skill a literal). -/
def vocabPat (skill : String) : RE :=
  seqs [.wordB, .lit skill.data, .wordB]

/-! ## `src/tools/jd_parser.py` — the extractors -/

/-- The `extract_job_title` tool: three search strategies in order, first match
wins; else the first line of the stripped text when shorter than 100
characters; else the sentinel. -/
def extract_job_title (text : String) : String :=
  match reSearch true titlePat1 text with
  | some m => pyStrip (m.grp 1)
  | none =>
    match reSearch true titlePat2 text with
    | some m => pyStrip (m.grp 1)
    | none =>
      match reSearch true titlePat3 text with
      | some m => pyStrip (m.grp 1)
      | none =>
        let first_line := (pySplitNL (pyStrip text)).headD ""
        if first_line.length < 100 then first_line else "Undefined Role"

/-- One `skills[skill] = years` pass over the `findall` tuples of one pattern.
`isLast` marks the inverted pattern `patterns[-1]`, whose two captures are
swapped before use.  Each tuple always has exactly two groups (the source's
`len(match) == 2` guard always holds).  Failed year parses default to 1. -/
def applyMatches (isLast : Bool) (ms : List Caps) (skills : List (String × Nat)) :
    List (String × Nat) :=
  ms.foldl (fun sk cp =>
    let g1 := capStr cp 1
    let g2 := capStr cp 2
    let skill := if isLast then g2 else g1
    let years := if isLast then g1 else g2
    assocSet sk (pyStrip skill) ((pyIntParse (pyStrip years)).getD 1)) skills

/-- The `extract_required_skills` tool: the four patterns applied in sequence
over the whole text, every match updating the map; if no skill was found, the
whole-word vocabulary fallback, each hit defaulted to 1 year. -/
def extract_required_skills (text : String) : List (String × Nat) :=
  let skills := applyMatches false (findAll true skillsPat1 text) []
  let skills := applyMatches false (findAll true skillsPat2 text) skills
  let skills := applyMatches false (findAll true skillsPat3 text) skills
  let skills := applyMatches true (findAll true skillsPat4 text) skills
  if skills.isEmpty then
    common_skills.foldl (fun sk s =>
      if (reSearch true (vocabPat s) text).isSome then assocSet sk s 1 else sk) []
  else skills

/-- Shared body of the responsibilities/qualifications extractors: given the
matched section, extract bullets, else split into non-empty stripped lines and
drop a leading header line. -/
def sectionItems (headerPat : RE) (sectionText : String) : List String :=
  let bullets := (findAll false bulletPat sectionText).map (fun cp => capStr cp 1)
  if bullets ≠ [] then bullets.map pyStrip
  else
    let lines := ((pySplitNL sectionText).map pyStrip).filter (fun l => l ≠ "")
    if lines.length > 1 && (reSearch true headerPat (lines.headD "")).isSome then
      lines.drop 1
    else lines

/-- The `extract_responsibilities` tool. -/
def extract_responsibilities (text : String) : List String :=
  match reSearch false respSectionPat text with
  | none => []
  | some m => sectionItems respHeaderPat m.whole

/-- The `extract_qualifications` tool. -/
def extract_qualifications (text : String) : List String :=
  match reSearch false qualSectionPat text with
  | none => []
  | some m => sectionItems qualHeaderPat m.whole

/-! ## Dictionary values crossing the tool boundary -/

/-- Values stored in the dictionaries the tools return. -/
inductive PyVal where
  | str (s : String)
  | nat (n : Nat)
  | bool (b : Bool)
  | strList (l : List String)
  | natMap (m : List (String × Nat))
deriving DecidableEq, Repr

/-- Dictionaries returned across the tool boundary. -/
abbrev PyDict := List (String × PyVal)

/-! ## `src/agents/jd_agent.py` — `parse_job_description_content`

The MongoDB logging block is a side effect that catches its own exceptions and
does not influence the returned dictionary; it is not part of the value-level
model. -/

/-- The `parse_job_description_content` tool: runs the four extractors on the
given text and returns the result dictionary with `success: True`.  The
extractors are total, so the enclosing `except` branch (which would return
`{"error": ..., "success": False}`) is never taken for direct text input. -/
def parse_job_description_content (jd_content : String) : PyDict :=
  [("job_title", .str (extract_job_title jd_content)),
   ("required_skills", .natMap (extract_required_skills jd_content)),
   ("responsibilities", .strList (extract_responsibilities jd_content)),
   ("qualifications", .strList (extract_qualifications jd_content)),
   ("content", .str jd_content),
   ("success", .bool true)]

/-! ## `src/tools/tool_utils.py` — response envelope -/

/-- `tool_utils.success_response(**kwargs)`: start from `{"success": True}` and
`update` it with the keyword arguments. -/
def tool_utils_success_response (kwargs : PyDict) : PyDict :=
  assocUpdate [("success", .bool true)] kwargs

/-- `tool_utils.error_response(error_message, traceback=None)`: the failure
envelope, with the traceback added only when truthy (non-empty). -/
def tool_utils_error_response (error_message : String) (traceback : Option String) : PyDict :=
  let response : PyDict := [("success", .bool false), ("error", .str error_message)]
  match traceback with
  | some tb => if tb ≠ "" then assocSet response "traceback" (.str tb) else response
  | none => response

/-! ## `src/tools/resume_parser.py` — envelope and PDF reading

`resume_parser.success_response(data)` executes `data["success"] = True` and
returns `json.dumps(data)`: it mutates the caller's dictionary in place.  The
embedding returns the pair (dictionary serialised as the return value,
post-call state of the `data` argument); in Python both are the same object.
-/

/-- `resume_parser.success_response(data)`.  First component: the dictionary
whose JSON serialisation is returned; second: the state of the `data` argument
after the call. -/
def resume_parser_success_response (data : PyDict) : PyDict × PyDict :=
  let d := assocSet data "success" (.bool true)
  (d, d)

/-- `resume_parser.error_response(message, extra={})`: builds the fresh
dictionary `{"success": False, "error": message, **extra}` (the argument
`extra` is only read).  Second component: the state of `extra` after the call.
-/
def resume_parser_error_response (message : String) (extra : PyDict) : PyDict × PyDict :=
  (assocUpdate [("success", .bool false), ("error", .str message)] extra, extra)

/-! ## `src/tools/pdf_utils.py` — the Content Reader

A file is modelled by its existence flag, raw bytes, extension, and the text
that the optional PyMuPDF library would extract (`none` when the import or the
extraction raises, both of which the source catches).  The model covers
readable files: OS-level errors other than non-existence (e.g. permission
denial) are outside it, matching the spec's "existing, readable file"
premises.  Text-mode reads decode the whole byte content with the requested
codec and then apply universal-newline translation, as CPython does. -/

/-- A byte. -/
abbrev Byte := Fin 256

/-- Errors `pdf_utils` can raise: `FileNotFoundError` and the terminal
`RuntimeError` of `read_pdf_content`. -/
inductive PyErr where
  | fileNotFound (msg : String)
  | runtimeError (msg : String)
deriving DecidableEq, Repr

/-- A filesystem path with its content, as seen by the Content Reader. -/
structure PyFile where
  path : String
  name : String
  present : Bool
  bytes : List Byte
  suffix : String
  pdfExtract : Option String
deriving DecidableEq, Repr

/-- Strict UTF-8 decoding (codec `utf-8`): fails on any invalid sequence,
overlong form, surrogate, or out-of-range code point. -/
def utf8Decode : List Byte → Option (List Char)
  | [] => some []
  | b :: bs =>
    if b.val < 0x80 then (utf8Decode bs).map (Char.ofNat b.val :: ·)
    else if b.val < 0xC2 then none
    else if b.val < 0xE0 then
      match bs with
      | b2 :: bs2 =>
        if 0x80 ≤ b2.val && b2.val < 0xC0 then
          (utf8Decode bs2).map (Char.ofNat ((b.val - 0xC0) * 0x40 + (b2.val - 0x80)) :: ·)
        else none
      | [] => none
    else if b.val < 0xF0 then
      match bs with
      | b2 :: b3 :: bs3 =>
        let lo2 := if b.val = 0xE0 then 0xA0 else 0x80
        let hi2 := if b.val = 0xED then 0xA0 else 0xC0
        if (lo2 ≤ b2.val && b2.val < hi2) && (0x80 ≤ b3.val && b3.val < 0xC0) then
          (utf8Decode bs3).map
            (Char.ofNat ((b.val - 0xE0) * 0x1000 + (b2.val - 0x80) * 0x40 + (b3.val - 0x80)) :: ·)
        else none
      | _ => none
    else if b.val < 0xF5 then
      match bs with
      | b2 :: b3 :: b4 :: bs4 =>
        let lo2 := if b.val = 0xF0 then 0x90 else 0x80
        let hi2 := if b.val = 0xF4 then 0x90 else 0xC0
        if (lo2 ≤ b2.val && b2.val < hi2) && (0x80 ≤ b3.val && b3.val < 0xC0) &&
            (0x80 ≤ b4.val && b4.val < 0xC0) then
          (utf8Decode bs4).map
            (Char.ofNat ((b.val - 0xF0) * 0x40000 + (b2.val - 0x80) * 0x1000 +
              (b3.val - 0x80) * 0x40 + (b4.val - 0x80)) :: ·)
        else none
      | _ => none
    else none

/-- Latin-1 decoding (codec `latin-1`): total, each byte is the code point. -/
def latin1DecodeChars (bs : List Byte) : List Char :=
  bs.map (fun b => Char.ofNat b.val)

/-- Latin-1 as a fallible codec in the encoding chain (it never fails). -/
def latin1Decode (bs : List Byte) : Option (List Char) :=
  some (latin1DecodeChars bs)

/-- The Windows-1252 mapping of one byte (codec `cp1252`): bytes
\x80–\x9F map through the Windows table, five of which are undefined and raise. -/
def cp1252Char (b : Byte) : Option Char :=
  if b.val < 0x80 || 0xA0 ≤ b.val then some (Char.ofNat b.val)
  else
    match b.val with
    | 0x80 => some (Char.ofNat 0x20AC)
    | 0x82 => some (Char.ofNat 0x201A)
    | 0x83 => some (Char.ofNat 0x0192)
    | 0x84 => some (Char.ofNat 0x201E)
    | 0x85 => some (Char.ofNat 0x2026)
    | 0x86 => some (Char.ofNat 0x2020)
    | 0x87 => some (Char.ofNat 0x2021)
    | 0x88 => some (Char.ofNat 0x02C6)
    | 0x89 => some (Char.ofNat 0x2030)
    | 0x8A => some (Char.ofNat 0x0160)
    | 0x8B => some (Char.ofNat 0x2039)
    | 0x8C => some (Char.ofNat 0x0152)
    | 0x8E => some (Char.ofNat 0x017D)
    | 0x91 => some (Char.ofNat 0x2018)
    | 0x92 => some (Char.ofNat 0x2019)
    | 0x93 => some (Char.ofNat 0x201C)
    | 0x94 => some (Char.ofNat 0x201D)
    | 0x95 => some (Char.ofNat 0x2022)
    | 0x96 => some (Char.ofNat 0x2013)
    | 0x97 => some (Char.ofNat 0x2014)
    | 0x98 => some (Char.ofNat 0x02DC)
    | 0x99 => some (Char.ofNat 0x2122)
    | 0x9A => some (Char.ofNat 0x0161)
    | 0x9B => some (Char.ofNat 0x203A)
    | 0x9C => some (Char.ofNat 0x0153)
    | 0x9E => some (Char.ofNat 0x017E)
    | 0x9F => some (Char.ofNat 0x0178)
    | _ => none

/-- Windows-1252 decoding (codec `cp1252`). -/
def cp1252Decode : List Byte → Option (List Char)
  | [] => some []
  | b :: bs =>
    match cp1252Char b, cp1252Decode bs with
    | some c, some cs => some (c :: cs)
    | _, _ => none

/-- Lossy UTF-8 decoding (`errors='replace'`): never fails; invalid input
yields replacement characters.  The exact granularity of replacement-character
emission approximates CPython's handler (one replacement per rejected leading
byte); no claim inspects this output. -/
def utf8DecodeLossy : List Byte → List Char
  | [] => []
  | b :: bs =>
    if b.val < 0x80 then Char.ofNat b.val :: utf8DecodeLossy bs
    else if 0xC2 ≤ b.val && b.val < 0xE0 then
      match bs with
      | b2 :: bs2 =>
        if 0x80 ≤ b2.val && b2.val < 0xC0 then
          Char.ofNat ((b.val - 0xC0) * 0x40 + (b2.val - 0x80)) :: utf8DecodeLossy bs2
        else Char.ofNat 0xFFFD :: utf8DecodeLossy (b2 :: bs2)
      | [] => [Char.ofNat 0xFFFD]
    else Char.ofNat 0xFFFD :: utf8DecodeLossy bs
termination_by l => l.length
decreasing_by all_goals simp_arith

/-- Universal-newline translation applied by text-mode reads:
`\r\n` and lone `\r` become `\n`. -/
def nlTranslate : List Char → List Char
  | [] => []
  | '\r' :: '\n' :: rest => '\n' :: nlTranslate rest
  | '\r' :: rest => '\n' :: nlTranslate rest
  | c :: rest => c :: nlTranslate rest

/-- Result of `open(path, 'r', encoding=enc).read()` for one codec: decode
the whole content, then translate newlines. -/
def decodeWith (enc : List Byte → Option (List Char)) (bs : List Byte) : Option String :=
  (enc bs).map (fun cs => String.mk (nlTranslate cs))

/-- The ordered codec chain `['utf-8', 'latin-1', 'cp1252', 'iso-8859-1']`.
In CPython `iso-8859-1` is an alias of `latin-1`. -/
def encodingChain : List (List Byte → Option (List Char)) :=
  [utf8Decode, latin1Decode, cp1252Decode, latin1Decode]

/-- Encoding loop of `read_text_file`: return the first successful decode. -/
def firstDecode : List (List Byte → Option (List Char)) → List Byte → Option String
  | [], _ => none
  | e :: es, bs =>
    match decodeWith e bs with
    | some s => some s
    | none => firstDecode es bs

/-- Encoding loop of `read_pdf_content`: return the first successful decode
whose stripped content is non-empty. -/
def firstNonEmptyDecode : List (List Byte → Option (List Char)) → List Byte → Option String
  | [], _ => none
  | e :: es, bs =>
    match decodeWith e bs with
    | some s => if pyStrip s ≠ "" then some s else firstNonEmptyDecode es bs
    | none => firstNonEmptyDecode es bs

/-- Fallback tiers of `read_pdf_content` after the PyMuPDF attempt: the
encoding loop, then the binary read decoded with replacement (which cannot
fail, so the final `raise RuntimeError` branch is unreachable for a readable
file). -/
def readPdfFallback (f : PyFile) : Except PyErr String :=
  match firstNonEmptyDecode encodingChain f.bytes with
  | some s => .ok s
  | none => .ok (String.mk (utf8DecodeLossy f.bytes))

/-- `read_pdf_content(path)`: existence check, PyMuPDF extraction when it
yields non-empty stripped content, then the fallback tiers. -/
def read_pdf_content (f : PyFile) : Except PyErr String :=
  if f.present = false then .error (.fileNotFound ("File not found: " ++ f.path))
  else
    match f.pdfExtract with
    | some content => if pyStrip content ≠ "" then .ok content else readPdfFallback f
    | none => readPdfFallback f

/-- `read_text_file(path)`: existence check, the encoding chain, then the
lossy binary fallback. -/
def read_text_file (f : PyFile) : Except PyErr String :=
  if f.present = false then .error (.fileNotFound ("File not found: " ++ f.path))
  else
    match firstDecode encodingChain f.bytes with
    | some s => .ok s
    | none => .ok (String.mk (utf8DecodeLossy f.bytes))

/-- `read_file_content(path)`: existence check, then dispatch on the
lower-cased extension. -/
def read_file_content (f : PyFile) : Except PyErr String :=
  if f.present = false then .error (.fileNotFound ("File not found: " ++ f.path))
  else if pyLower f.suffix = ".pdf" then read_pdf_content f
  else read_text_file f

/-- `resume_parser.safe_read_pdf(path)`: `read_pdf_content` with a
catch-everything fallback that retries `path.read_text()` over the same codec
chain and finally the lossy binary decode. -/
def safe_read_pdf (f : PyFile) : String :=
  match read_pdf_content f with
  | .ok s => s
  | .error _ =>
    match decodeWith utf8Decode f.bytes with
    | some s => s
    | none =>
      match firstDecode [latin1Decode, cp1252Decode, latin1Decode] f.bytes with
      | some s => s
      | none => String.mk (utf8DecodeLossy f.bytes)

/-- The `parse_resume_pdf` tool of `resume_parser.py`: an error envelope when
the path does not exist, otherwise a success envelope with the file name and
the extracted content (`safe_read_pdf` is total, so the enclosing `except`
branch is never taken). -/
def parse_resume_pdf (f : PyFile) : PyDict :=
  if f.present = false then
    (resume_parser_error_response ("File not found: " ++ f.path) []).1
  else
    (resume_parser_success_response
      [("filename", .str f.name), ("content", .str (safe_read_pdf f))]).1

/-! ## Resume contact extraction -/

/-- Extracted contact fields. -/
structure ContactInfo where
  email : Option String
  phone : Option String
  linkedin_handle : Option String
deriving DecidableEq, Repr

/-- Email pattern used by `contactEmailSearch`.  Modelled from the spec: the
Resume Field Extractor's `extract_contact` routine is not under `src/` (only
the agent wrappers are); the spec describes "first regex match for each of an
email pattern", transcribed here as the conventional
`[A-Za-z0-9._%+-]+@[A-Za-z0-9.-]+\.[A-Za-z]{2,}`. -/
def emailPat : RE :=
  seqs [.plusCls true (.oneOf ("abcdefghijklmnopqrstuvwxyzABCDEFGHIJKLMNOPQRSTUVWXYZ0123456789._%+-".data)),
    strL "@",
    .plusCls true (.oneOf ("abcdefghijklmnopqrstuvwxyzABCDEFGHIJKLMNOPQRSTUVWXYZ0123456789.-".data)),
    strL ".",
    .cls (.oneOf ("abcdefghijklmnopqrstuvwxyzABCDEFGHIJKLMNOPQRSTUVWXYZ".data)),
    .plusCls true (.oneOf ("abcdefghijklmnopqrstuvwxyzABCDEFGHIJKLMNOPQRSTUVWXYZ".data))]

/-- Phone pattern.  Modelled from the spec: "a phone pattern (accepting
optional country code and flexible separators)", transcribed as
`(?:\+?\d{1,3}[\s.-]?)?\(?\d{3}\)?[\s.-]?\d{3}[\s.-]?\d{4}`. -/
def phonePat : RE :=
  let sep := .optR true (.cls (.oneOf [' ', '.', '-']))
  seqs [.optR true (seqs [.optR true (strL "+"), .cls .digit, .optR true (.cls .digit),
      .optR true (.cls .digit), sep]),
    .optR true (strL "("), .cls .digit, .cls .digit, .cls .digit, .optR true (strL ")"), sep,
    .cls .digit, .cls .digit, .cls .digit, sep,
    .cls .digit, .cls .digit, .cls .digit, .cls .digit]

/-- LinkedIn pattern.  Modelled from the spec: "a LinkedIn handle pattern
(recognizing "linkedin.com/in/", "linkedin/", "linkedin:" prefixes)",
transcribed as `(?:linkedin\.com/in/|linkedin/|linkedin:)\s*([A-Za-z0-9_-]+)`.
-/
def linkedinPat : RE :=
  seqs [alts [strL "linkedin.com/in/", strL "linkedin/", strL "linkedin:"],
    .starCls true .space,
    .groupR 1 (.plusCls true (.oneOf ("abcdefghijklmnopqrstuvwxyzABCDEFGHIJKLMNOPQRSTUVWXYZ0123456789_-".data)))]

/-- Modelled from the spec: `extract_contact(text)` of the Resume Field
Extractor, absent from `src/`.  First case-insensitive regex match for each of
the email, phone and LinkedIn patterns; each field `None` when its pattern has
no match (email and phone report the whole match, LinkedIn its handle group).
-/
def extract_contact (text : String) : ContactInfo :=
  { email := (reSearch true emailPat text).map (fun m => m.whole)
    phone := (reSearch true phonePat text).map (fun m => m.whole)
    linkedin_handle := (reSearch true linkedinPat text).map (fun m => m.grp 1) }

/-! # Association-list lemmas (Python `dict` semantics) -/

theorem lookup_eq_none_of_forall {β : Type} {d : List (String × β)} {k : String}
    (h : ∀ kv ∈ d, kv.1 ≠ k) : d.lookup k = none := by
  induction d with
  | nil => rfl
  | cons kv rest ih =>
    have hk : kv.1 ≠ k := h kv (List.mem_cons_self kv rest)
    simp only [List.lookup]
    rw [show (k == kv.1) = false from beq_eq_false_iff_ne.mpr fun hc => hk hc.symm]
    exact ih fun x hx => h x (List.mem_cons_of_mem kv hx)

theorem forall_ne_of_lookup_eq_none {β : Type} {d : List (String × β)} {k : String}
    (h : d.lookup k = none) : ∀ kv ∈ d, kv.1 ≠ k := by
  induction d with
  | nil => simp
  | cons kv rest ih =>
    intro x hx
    simp only [List.lookup] at h
    cases hb : (k == kv.1) with
    | true => rw [hb] at h; exact absurd h (by simp)
    | false =>
      rw [hb] at h
      rcases List.mem_cons.mp hx with hx' | hx'
      · subst hx'
        intro hc
        rw [hc, beq_self_eq_true] at hb
        exact Bool.false_ne_true hb.symm
      · exact ih h x hx'

theorem assocSet_eq_append {β : Type} {d : List (String × β)} {k : String} (v : β)
    (h : d.lookup k = none) : assocSet d k v = d ++ [(k, v)] := by
  induction d with
  | nil => rfl
  | cons kv rest ih =>
    have hk : kv.1 ≠ k := forall_ne_of_lookup_eq_none h kv (List.mem_cons_self kv rest)
    simp only [List.lookup] at h
    rw [show (k == kv.1) = false from beq_eq_false_iff_ne.mpr fun hc => hk hc.symm] at h
    simp only [assocSet]
    rw [if_neg hk, ih h]
    rfl

theorem lookup_append_of_none {β : Type} {d1 : List (String × β)} (d2 : List (String × β))
    {k : String} (h : d1.lookup k = none) : (d1 ++ d2).lookup k = d2.lookup k := by
  induction d1 with
  | nil => rfl
  | cons kv rest ih =>
    simp only [List.lookup, List.cons_append] at h ⊢
    cases hb : (k == kv.1) with
    | true => rw [hb] at h; exact absurd h (by simp)
    | false => rw [hb] at h; exact ih h

theorem assocUpdate_eq_append {β : Type} {other : List (String × β)} :
    ∀ {base : List (String × β)},
    (h : ∀ kv ∈ other, base.lookup kv.1 = none) →
    (hnd : (other.map Prod.fst).Nodup) →
    assocUpdate base other = base ++ other := by
  induction other with
  | nil => intro base _ _; simp [assocUpdate]
  | cons kv rest ih =>
    intro base h hnd
    have hnd2 := hnd
    simp only [List.map_cons, List.nodup_cons] at hnd2
    have hbase : base.lookup kv.1 = none := h kv (List.mem_cons_self kv rest)
    have hstep : assocSet base kv.1 kv.2 = base ++ [kv] := by
      rw [assocSet_eq_append kv.2 hbase]
    have hrest : ∀ x ∈ rest, (base ++ [kv]).lookup x.1 = none := by
      intro x hx
      rw [lookup_append_of_none [kv] (h x (List.mem_cons_of_mem kv hx))]
      have hne : x.1 ≠ kv.1 := by
        intro hc
        exact hnd2.1 (hc ▸ List.mem_map_of_mem Prod.fst hx)
      refine lookup_eq_none_of_forall ?_
      intro y hy
      rcases List.mem_singleton.mp hy with hy'
      rw [hy']
      exact fun hc => hne hc.symm
    calc assocUpdate base (kv :: rest)
        = assocUpdate (assocSet base kv.1 kv.2) rest := rfl
      _ = (base ++ [kv]) ++ rest := by rw [hstep]; exact ih hrest hnd2.2
      _ = base ++ kv :: rest := by simp

/-! # The claims -/

/-- C8: for every input text, `parse_job_description_content` succeeds and
returns all four extracted fields together with the content: the field
extractors are total functions of the text, so no pattern-matching or
extraction error propagates out of any of them, no field-level failure aborts
the others, and the `success` flag is always `True`. -/
theorem claim_C8 (text : String) :
    (parse_job_description_content text).lookup "success" = some (.bool true) ∧
    (parse_job_description_content text).lookup "job_title" =
      some (.str (extract_job_title text)) ∧
    (parse_job_description_content text).lookup "required_skills" =
      some (.natMap (extract_required_skills text)) ∧
    (parse_job_description_content text).lookup "responsibilities" =
      some (.strList (extract_responsibilities text)) ∧
    (parse_job_description_content text).lookup "qualifications" =
      some (.strList (extract_qualifications text)) ∧
    (parse_job_description_content text).lookup "content" = some (.str text) := by
  refine ⟨rfl, rfl, rfl, rfl, rfl, rfl⟩

/-- C9 (counterexample): `resume_parser.success_response` is not pure in its
argument: after the call the `data` dictionary passed by the caller has gained
the key `success`, so the argument mapping is changed. -/
theorem claim_C9_cex :
    (resume_parser_success_response [("filename", PyVal.str "r1")]).2 ≠
      [("filename", PyVal.str "r1")] := by
  decide

/-- C9 (amended): with payload/extra keys distinct and not named `success` or
`error`, `tool_utils.success_response` returns exactly the payload fields
merged onto `{success: true}`, both `error_response` variants return exactly
`{success: false, error: message}` merged with the extras and leave `extra`
unchanged, and `resume_parser.success_response` returns exactly the `data`
fields with `success: true` appended but also leaves its argument in that
mutated state rather than unchanged. -/
theorem claim_C9 (payload data extra : PyDict) (msg : String)
    (hp : payload.lookup "success" = none)
    (hpn : (payload.map Prod.fst).Nodup)
    (hd : data.lookup "success" = none)
    (he1 : extra.lookup "success" = none)
    (he2 : extra.lookup "error" = none)
    (hen : (extra.map Prod.fst).Nodup) :
    tool_utils_success_response payload = ("success", .bool true) :: payload ∧
    tool_utils_error_response msg none = [("success", .bool false), ("error", .str msg)] ∧
    resume_parser_error_response msg extra =
      (("success", .bool false) :: ("error", .str msg) :: extra, extra) ∧
    resume_parser_success_response data =
      (data ++ [("success", .bool true)], data ++ [("success", .bool true)]) := by
  have hp' : ∀ kv ∈ payload, List.lookup kv.1 [("success", PyVal.bool true)] = none := by
    intro kv hkv
    have hne := forall_ne_of_lookup_eq_none hp kv hkv
    simp only [List.lookup]
    rw [show (kv.1 == "success") = false from beq_eq_false_iff_ne.mpr hne]
  have he' : ∀ kv ∈ extra,
      List.lookup kv.1 [("success", PyVal.bool false), ("error", PyVal.str msg)] = none := by
    intro kv hkv
    have h1 := forall_ne_of_lookup_eq_none he1 kv hkv
    have h2 := forall_ne_of_lookup_eq_none he2 kv hkv
    simp only [List.lookup]
    rw [show (kv.1 == "success") = false from beq_eq_false_iff_ne.mpr h1,
      show (kv.1 == "error") = false from beq_eq_false_iff_ne.mpr h2]
  refine ⟨?_, rfl, ?_, ?_⟩
  · show assocUpdate [("success", .bool true)] payload = _
    rw [assocUpdate_eq_append hp' hpn]
    rfl
  · show (assocUpdate [("success", .bool false), ("error", .str msg)] extra, extra) = _
    rw [assocUpdate_eq_append he' hen]
    rfl
  · show (assocSet data "success" (.bool true), assocSet data "success" (.bool true)) = _
    rw [assocSet_eq_append _ hd]

/-- C9 (witness): the amended statement at concrete envelopes. -/
theorem claim_C9_witness :
    tool_utils_success_response [("filename", PyVal.str "x")] =
      [("success", PyVal.bool true), ("filename", PyVal.str "x")] ∧
    resume_parser_success_response [("filename", PyVal.str "r1")] =
      ([("filename", PyVal.str "r1"), ("success", PyVal.bool true)],
       [("filename", PyVal.str "r1"), ("success", PyVal.bool true)]) := by
  have h := claim_C9 [("filename", PyVal.str "x")] [("filename", PyVal.str "r1")]
    [("warning", PyVal.str "w")] "m" (by decide) (by decide) (by decide) (by decide)
    (by decide) (by decide)
  exact ⟨h.1, h.2.2.2⟩

/-- C1: on the Content Reader boundary, `read_file_content` fails with
`FileNotFoundError` if and only if the path does not exist, returns a string
for every existing readable file (the codec chain ends in decoders that cannot
fail, so neither the encodings loop nor the binary fallback raises), and
`parse_resume_pdf` returns the failure envelope exactly for missing paths and
a success envelope with the extracted content for existing ones. -/
theorem claim_C1 (f : PyFile) :
    (∀ e, read_file_content f = .error e →
      f.present = false ∧ e = .fileNotFound ("File not found: " ++ f.path)) ∧
    (f.present = false →
      read_file_content f = .error (.fileNotFound ("File not found: " ++ f.path))) ∧
    (f.present = true → ∃ s, read_file_content f = .ok s) ∧
    (f.present = false ↔ (parse_resume_pdf f).lookup "success" = some (.bool false)) ∧
    (f.present = true → (parse_resume_pdf f).lookup "success" = some (.bool true) ∧
      (parse_resume_pdf f).lookup "content" = some (.str (safe_read_pdf f))) := by
  cases hp : f.present with
  | false =>
    refine ⟨?_, fun _ => by simp [read_file_content, hp], ?_, ?_, ?_⟩
    · intro e he
      simp only [read_file_content, hp, if_pos] at he
      exact ⟨rfl, ((Except.error.injEq _ _).mp he).symm⟩
    · intro hc; exact absurd hc (by simp)
    · simp [parse_resume_pdf, hp, resume_parser_error_response, assocUpdate, List.lookup]
    · intro hc; exact absurd hc (by simp)
  | true =>
    have hok : ∃ s, read_file_content f = .ok s := by
      simp only [read_file_content, hp]
      split
      · exact absurd hp (by simp_all)
      · split
        · show ∃ s, read_pdf_content f = .ok s
          simp only [read_pdf_content, hp]
          cases f.pdfExtract with
          | none =>
            simp only [readPdfFallback]
            cases firstNonEmptyDecode encodingChain f.bytes <;> simp
          | some content =>
            by_cases hc : pyStrip content ≠ ""
            · simp [hc]
            · simp only [readPdfFallback, hc, if_neg, if_false, reduceIte]
              cases firstNonEmptyDecode encodingChain f.bytes <;> simp
        · show ∃ s, read_text_file f = .ok s
          simp only [read_text_file, hp]
          cases firstDecode encodingChain f.bytes <;> simp
    refine ⟨?_, fun hc => absurd hc (by simp), fun _ => hok, ?_, ?_⟩
    · intro e he
      obtain ⟨s, hs⟩ := hok
      rw [hs] at he
      exact absurd he (by simp)
    · constructor
      · intro hc; exact absurd hc (by simp)
      · intro hc
        simp only [parse_resume_pdf, hp, Bool.false_eq_true, if_false,
          resume_parser_success_response, assocSet, List.lookup, reduceIte] at hc
        simp at hc
    · intro _
      constructor
      · simp [parse_resume_pdf, hp, resume_parser_success_response, assocSet, List.lookup]
      · simp [parse_resume_pdf, hp, resume_parser_success_response, assocSet, List.lookup]

/-- C1 (witness): the guarantees at a present text file and at a missing one. -/
theorem claim_C1_witness :
    (∃ s, read_file_content ⟨"a.txt", "a.txt", true, [], ".txt", none⟩ = .ok s) ∧
    (parse_resume_pdf ⟨"r.pdf", "r.pdf", false, [], ".pdf", none⟩).lookup "success" =
      some (.bool false) := by
  refine ⟨(claim_C1 ⟨"a.txt", "a.txt", true, [], ".txt", none⟩).2.2.1 (by decide), ?_⟩
  exact ((claim_C1 ⟨"r.pdf", "r.pdf", false, [], ".pdf", none⟩).2.2.2.1).mp (by decide)

/-- C6: for every existing non-PDF file, the Content Reader attempts the fixed
codec chain UTF-8, Latin-1, Windows-1252, ISO-8859-1 and returns the text-mode
read of the first codec that decodes without error: a valid-UTF-8 file returns
the UTF-8 text, a file that is not valid UTF-8 returns the Latin-1 text (that
attempt cannot fail), and in every case some string is returned, the terminal
lossy fallback making failure impossible. -/
theorem claim_C6 (f : PyFile) (hp : f.present = true) (hpdf : pyLower f.suffix ≠ ".pdf") :
    (∀ s, decodeWith utf8Decode f.bytes = some s → read_file_content f = .ok s) ∧
    (decodeWith utf8Decode f.bytes = none →
      read_file_content f = .ok (String.mk (nlTranslate (latin1DecodeChars f.bytes)))) ∧
    (∃ s, read_file_content f = .ok s) := by
  have hrf : read_file_content f = read_text_file f := by
    simp [read_file_content, read_text_file, hp, hpdf]
  refine ⟨?_, ?_, ?_⟩
  · intro s hs
    rw [hrf]
    simp [read_text_file, hp, firstDecode, encodingChain, hs]
  · intro hs
    have hu : utf8Decode f.bytes = none := by
      simp only [decodeWith] at hs
      exact Option.map_eq_none'.mp hs
    rw [hrf]
    simp [read_text_file, hp, firstDecode, encodingChain, decodeWith, hu, latin1Decode,
      latin1DecodeChars]
  · rw [hrf]
    simp only [read_text_file, hp, Bool.true_eq_false, if_false, reduceIte]
    cases firstDecode encodingChain f.bytes <;> simp

/-- C6 (witness): the byte 0xE9 is not valid UTF-8 but is valid Latin-1, so the
file containing it decodes at the Latin-1 attempt without raising. -/
theorem claim_C6_witness :
    read_file_content ⟨"a.txt", "a.txt", true, [(0xE9 : Byte)], ".txt", none⟩ =
      .ok (String.mk (nlTranslate (latin1DecodeChars [(0xE9 : Byte)]))) :=
  (claim_C6 ⟨"a.txt", "a.txt", true, [(0xE9 : Byte)], ".txt", none⟩ (by decide)
    (by decide)).2.1 (by decide)

/-- C10: for every existing file, `read_text_file` returns at the UTF-8 or the
Latin-1 attempt: Latin-1 decoding succeeds on every byte sequence, so the
Windows-1252 and ISO-8859-1 attempts and the lossy replacement-character
fallback are unreachable and the returned text is never produced by lossy
decoding. -/
theorem claim_C10 (f : PyFile) (hp : f.present = true) :
    (latin1Decode f.bytes).isSome = true ∧
    ((∃ u, utf8Decode f.bytes = some u ∧
        read_text_file f = .ok (String.mk (nlTranslate u))) ∨
      (utf8Decode f.bytes = none ∧
        read_text_file f = .ok (String.mk (nlTranslate (latin1DecodeChars f.bytes))))) := by
  refine ⟨rfl, ?_⟩
  cases hu : utf8Decode f.bytes with
  | some u =>
    refine .inl ⟨u, rfl, ?_⟩
    simp [read_text_file, hp, firstDecode, encodingChain, decodeWith, hu]
  | none =>
    refine .inr ⟨rfl, ?_⟩
    simp [read_text_file, hp, firstDecode, encodingChain, decodeWith, hu, latin1Decode,
      latin1DecodeChars]

/-- C10 (witness): the guarantee at a file whose single byte is invalid UTF-8. -/
theorem claim_C10_witness :
    (latin1Decode [(0x80 : Byte)]).isSome = true ∧
    ((∃ u, utf8Decode [(0x80 : Byte)] = some u ∧
        read_text_file ⟨"b.bin", "b.bin", true, [(0x80 : Byte)], ".bin", none⟩ =
          .ok (String.mk (nlTranslate u))) ∨
      (utf8Decode [(0x80 : Byte)] = none ∧
        read_text_file ⟨"b.bin", "b.bin", true, [(0x80 : Byte)], ".bin", none⟩ =
          .ok (String.mk (nlTranslate (latin1DecodeChars [(0x80 : Byte)]))))) :=
  claim_C10 ⟨"b.bin", "b.bin", true, [(0x80 : Byte)], ".bin", none⟩ (by decide)

/-- C4: a resume text containing `jane.doe@example.com` and
`linkedin.com/in/janedoe` and no digits yields exactly that email, the
LinkedIn handle `janedoe`, and no phone number — each field being the first
match of its pattern and `None` when the pattern has no match. -/
theorem claim_C4 :
    extract_contact "Jane Doe\njane.doe@example.com\nlinkedin.com/in/janedoe" =
      { email := some "jane.doe@example.com", phone := none,
        linkedin_handle := some "janedoe" } := by
  decide

/-- C5 (counterexample): in the two-line JD whose only skill mentions are
`Python: 3 years` and `Java (5+ years)`, the inverted pattern
`(\d+)\+?\s*(?:years|yrs)(?:\s*of)?\s*(\w+...)` also matches `3 years\nJava`
(`\s*` crosses the newline) and re-binds `Java` to 3, and the parenthesis
pattern's skill group `(\w+(?:\s+\w+)?)` grabs `years\nJava`; the result is
not `{"Python": 3, "Java": 5}`. -/
theorem claim_C5_cex :
    extract_required_skills "Python: 3 years\nJava (5+ years)" =
      [("Python", 3), ("years\nJava", 5), ("Java", 3)] := by
  decide

/-- C5 (amended): when the two mentions are separated so that no word follows
`3 years` across only whitespace — here by sentence punctuation — the parser
returns exactly `{"Python": 3, "Java": 5}`; with whitespace-only separation
(e.g. a newline) the inverted pattern re-binds the following word, as the
counterexample shows. -/
theorem claim_C5 :
    extract_required_skills "Python: 3 years. Java (5+ years)." =
      [("Python", 3), ("Java", 5)] := by
  decide

/-- C2 (counterexample): `extract_required_skills "Python: 0 years"` returns
the mapping `{"Python": 0}`, whose value is not `≥ 1`: the captured numeral is
used as-is, so an explicit `0 years` requirement produces the value 0. -/
theorem claim_C2_cex :
    extract_required_skills "Python: 0 years" = [("Python", 0)] := by
  decide

set_option maxRecDepth 40000 in
/-- C7 (counterexample): a JD with no title label (no pattern-(a) match), no
colon, and a 110-character first line is claimed to give `"Undefined Role"`,
but strategy (b) `^([^:]+?)(?:Job|Position|Role|Overview)` matches the word
`Position` inside the long line and returns the 98-character prefix instead. -/
theorem claim_C7_cex :
    reSearch true titlePat1 (String.mk (List.replicate 98 'x') ++ " Position yz") = none ∧
    100 < ((pySplitNL (pyStrip (String.mk (List.replicate 98 'x') ++ " Position yz"))).headD
      "").length ∧
    extract_job_title (String.mk (List.replicate 98 'x') ++ " Position yz") ≠
      "Undefined Role" := by
  refine ⟨by decide, by decide, by decide⟩

/-- C7 (amended): the three regex strategies are tried in order with the first
match winning, and when none of the three patterns matches anywhere in the
text the result is the first line of the stripped document when shorter than
100 characters and the sentinel `"Undefined Role"` otherwise; a JD on which
all three strategies fail and whose first line is 100 characters or longer
therefore returns the sentinel. -/
theorem claim_C7 (text : String) :
    (∀ m, reSearch true titlePat1 text = some m →
      extract_job_title text = pyStrip (m.grp 1)) ∧
    (reSearch true titlePat1 text = none → reSearch true titlePat2 text = none →
      reSearch true titlePat3 text = none →
      extract_job_title text =
        (if ((pySplitNL (pyStrip text)).headD "").length < 100 then
          (pySplitNL (pyStrip text)).headD ""
        else "Undefined Role")) := by
  constructor
  · intro m hm
    simp [extract_job_title, hm]
  · intro h1 h2 h3
    simp [extract_job_title, h1, h2, h3]

/-- C7 (witness): on `"zzzz"` none of the three strategies matches and the
fallback returns the (short) first line itself. -/
theorem claim_C7_witness :
    extract_job_title "zzzz" =
      (if ((pySplitNL (pyStrip "zzzz")).headD "").length < 100 then
        (pySplitNL (pyStrip "zzzz")).headD ""
      else "Undefined Role") :=
  (claim_C7 "zzzz").2 (by decide) (by decide) (by decide)

/-- The year-group capture strings of the four skill patterns over a text:
group 2 of the first three patterns and group 1 of the inverted pattern. -/
def yearCaptures (text : String) : List String :=
  (findAll true skillsPat1 text).map (fun cp => capStr cp 2) ++
    (findAll true skillsPat2 text).map (fun cp => capStr cp 2) ++
    (findAll true skillsPat3 text).map (fun cp => capStr cp 2) ++
    (findAll true skillsPat4 text).map (fun cp => capStr cp 1)

theorem mem_assocSet_val {β : Type} {d : List (String × β)} {k k' : String} {v v' : β}
    (h : (k, v) ∈ assocSet d k' v') : (k, v) ∈ d ∨ v = v' := by
  induction d with
  | nil =>
    simp only [assocSet, List.mem_singleton, Prod.mk.injEq] at h
    exact .inr h.2
  | cons kv rest ih =>
    simp only [assocSet] at h
    split at h
    · rcases List.mem_cons.mp h with h' | h'
      · exact .inr ((Prod.mk.injEq _ _ _ _).mp h').2
      · exact .inl (List.mem_cons_of_mem _ h')
    · rcases List.mem_cons.mp h with h' | h'
      · exact .inl (h' ▸ List.mem_cons_self _ _)
      · rcases ih h' with h'' | h''
        · exact .inl (List.mem_cons_of_mem _ h'')
        · exact .inr h''

theorem mem_applyMatches {isLast : Bool} {ms : List Caps} :
    ∀ {sk : List (String × Nat)} {k : String} {v : Nat},
    (k, v) ∈ applyMatches isLast ms sk →
    (k, v) ∈ sk ∨ ∃ cp ∈ ms,
      v = (pyIntParse (pyStrip (if isLast then capStr cp 1 else capStr cp 2))).getD 1 := by
  induction ms with
  | nil => intro sk k v h; exact .inl h
  | cons cp rest ih =>
    intro sk k v h
    have h2 : (k, v) ∈ applyMatches isLast rest
        (assocSet sk (pyStrip (if isLast then capStr cp 2 else capStr cp 1))
          ((pyIntParse (pyStrip (if isLast then capStr cp 1 else capStr cp 2))).getD 1)) := by
      simpa [applyMatches, List.foldl] using h
    rcases ih h2 with h' | ⟨cp', hcp', hv⟩
    · rcases mem_assocSet_val h' with h'' | h''
      · exact .inl h''
      · exact .inr ⟨cp, List.mem_cons_self _ _, h''⟩
    · exact .inr ⟨cp', List.mem_cons_of_mem _ hcp', hv⟩

theorem mem_vocabFoldAux {text : String} :
    ∀ (l : List String) {acc : List (String × Nat)} {k : String} {v : Nat},
    (∀ kv ∈ acc, kv.2 = 1) →
    (k, v) ∈ l.foldl (fun sk s =>
      if (reSearch true (vocabPat s) text).isSome then assocSet sk s 1 else sk) acc →
    v = 1 := by
  intro l
  induction l with
  | nil => intro acc k v hacc h; exact hacc (k, v) h
  | cons s rest ih =>
    intro acc k v hacc h
    simp only [List.foldl] at h
    refine ih ?_ h
    intro kv hkv
    by_cases hs : (reSearch true (vocabPat s) text).isSome
    · rw [if_pos hs] at hkv
      rcases @mem_assocSet_val Nat acc kv.1 s kv.2 1 (by simpa using hkv) with h' | h'
      · exact hacc _ h'
      · exact h'
    · rw [if_neg hs] at hkv
      exact hacc _ hkv

/-- C2 (amended): every value of the mapping returned by
`extract_required_skills` is either the default 1 (from the vocabulary
fallback, or a failed parse of the captured numeral) or the parsed value of a
year numeral captured in the text — hence a non-negative integer, but not
necessarily `≥ 1`: an explicit `0`-year capture yields 0, as the
counterexample shows. -/
theorem claim_C2 (text : String) (k : String) (v : Nat)
    (h : (k, v) ∈ extract_required_skills text) :
    v = 1 ∨ ∃ y ∈ yearCaptures text, v = (pyIntParse (pyStrip y)).getD 1 := by
  unfold extract_required_skills at h
  simp only at h
  split at h
  · exact .inl (mem_vocabFoldAux common_skills (by simp) h)
  · rcases mem_applyMatches h with h1 | ⟨cp, hcp, hv⟩
    · rcases mem_applyMatches h1 with h2 | ⟨cp, hcp, hv⟩
      · rcases mem_applyMatches h2 with h3 | ⟨cp, hcp, hv⟩
        · rcases mem_applyMatches h3 with h4 | ⟨cp, hcp, hv⟩
          · exact absurd h4 (List.not_mem_nil _)
          · refine .inr ⟨capStr cp 2, ?_, by simpa using hv⟩
            unfold yearCaptures
            refine List.mem_append.mpr (.inl (List.mem_append.mpr (.inl
              (List.mem_append.mpr (.inl ?_)))))
            exact List.mem_map_of_mem _ hcp
        · refine .inr ⟨capStr cp 2, ?_, by simpa using hv⟩
          unfold yearCaptures
          refine List.mem_append.mpr (.inl (List.mem_append.mpr (.inl
            (List.mem_append.mpr (.inr ?_)))))
          exact List.mem_map_of_mem _ hcp
      · refine .inr ⟨capStr cp 2, ?_, by simpa using hv⟩
        unfold yearCaptures
        refine List.mem_append.mpr (.inl (List.mem_append.mpr (.inr ?_)))
        exact List.mem_map_of_mem _ hcp
    · refine .inr ⟨capStr cp 1, ?_, by simpa using hv⟩
      unfold yearCaptures
      refine List.mem_append.mpr (.inr ?_)
      exact List.mem_map_of_mem _ hcp

/-- C2 (witness): the guarantee at the text `Python: 3 years`, whose single
entry has the captured value 3. -/
theorem claim_C2_witness :
    (3 : Nat) = 1 ∨ ∃ y ∈ yearCaptures "Python: 3 years",
      (3 : Nat) = (pyIntParse (pyStrip y)).getD 1 :=
  claim_C2 "Python: 3 years" "Python" 3 (by decide)

/-! ## Matcher lemmas for the responsibilities-section analysis -/

/-- Character just before a position after consuming `l` starting from `p`. -/
def lastPrev : List Char → Option Char → Option Char
  | [], p => p
  | c :: cs, _ => lastPrev cs (some c)

theorem charEq_self (ic : Bool) (c : Char) : charEq ic c c = true := by
  cases ic <;> simp [charEq]

theorem matchLit_self (ic : Bool) (k : K σ) :
    ∀ (s r : List Char) (p : Option Char) (cp : Caps),
    matchLit ic k s p (s ++ r) cp = k (lastPrev s p) r cp := by
  intro s
  induction s with
  | nil => intro r p cp; rfl
  | cons c cs ih =>
    intro r p cp
    simp only [List.cons_append, matchLit, charEq_self, if_pos]
    exact ih r (some c) cp

theorem take_len_append {α : Type} (a b : List α) : (a ++ b).take a.length = a := by
  induction a with
  | nil => rfl
  | cons x xs ih => simp [ih]

theorem greedyStarM_all (ic : Bool) (c : CharCls) (k : K σ) {res : σ} :
    ∀ (a : List Char) (b : List Char) (cp : Caps),
    (∀ x ∈ a, clsMatch ic c x = true) →
    (∀ y, b.head? = some y → clsMatch ic c y = false) →
    ∀ p, k (lastPrev a p) b cp = some res →
    greedyStarM ic c k p (a ++ b) cp = some res := by
  intro a
  induction a with
  | nil =>
    intro b cp _ hb p hsucc
    cases b with
    | nil => exact hsucc
    | cons y ys =>
      simp only [List.nil_append, greedyStarM, hb y rfl, Bool.false_eq_true, if_false,
        reduceIte]
      exact hsucc
  | cons x a' ih =>
    intro b cp ha hb p hsucc
    have hx : clsMatch ic c x = true := ha x (List.mem_cons_self x a')
    have hrec := ih b cp (fun z hz => ha z (List.mem_cons_of_mem x hz)) hb (some x) hsucc
    simp only [List.cons_append, greedyStarM, hx, if_pos, reduceIte, List.append_eq, hrec]

theorem lazyStarM_stops (ic : Bool) (c : CharCls) (k : K σ) {res : σ} :
    ∀ (a : List Char) (b : List Char) (cp : Caps),
    (∀ x ∈ a, clsMatch ic c x = true) →
    (∀ b2, b2 ≠ [] → b2.IsSuffix a → ∀ q, k q (b2 ++ b) cp = none) →
    ∀ p, k (lastPrev a p) b cp = some res →
    lazyStarM ic c k p (a ++ b) cp = some res := by
  intro a
  induction a with
  | nil =>
    intro b cp _ _ p hsucc
    simp only [lastPrev] at hsucc
    cases b with
    | nil => exact hsucc
    | cons y ys => simp only [List.nil_append, lazyStarM, hsucc]
  | cons x a' ih =>
    intro b cp ha hfail p hsucc
    have hx : clsMatch ic c x = true := ha x (List.mem_cons_self x a')
    have hk : k p ((x :: a') ++ b) cp = none :=
      hfail (x :: a') (by simp) (List.suffix_refl _) p
    simp only [List.cons_append] at hk
    have hrec := ih b cp (fun z hz => ha z (List.mem_cons_of_mem x hz))
      (fun b2 hne hsf q => hfail b2 hne (hsf.trans (List.suffix_cons x a')) q)
      (some x) hsucc
    simp only [List.cons_append, lazyStarM, hk, hx, if_pos, reduceIte, List.append_eq, hrec]

theorem searchA_eq_of_matchHere {ic : Bool} {e : RE} {p : Option Char}
    {consumed r' : List Char} {p' : Option Char} {cp : Caps}
    (h : matchHere ic e p (consumed ++ r') = some (p', r', cp)) :
    searchA ic e p (consumed ++ r') = some ⟨[], consumed, cp, p', r'⟩ := by
  have hlen : (consumed ++ r').length - r'.length = consumed.length := by
    simp [List.length_append]
  cases hr : consumed ++ r' with
  | nil =>
    rw [hr] at h
    obtain ⟨hc, hr2⟩ := List.append_eq_nil.mp hr
    subst hc
    subst hr2
    simp [searchA, h]
  | cons x xs =>
    rw [hr] at h
    simp only [searchA, h]
    rw [← hr, hlen, take_len_append]

theorem searchA_none_of_fail (ic : Bool) (e : RE) :
    ∀ (r : List Char), (∀ s, s.IsSuffix r → ∀ q, matchHere ic e q s = none) →
    ∀ p, searchA ic e p r = none := by
  intro r
  induction r with
  | nil =>
    intro hall p
    simp [searchA, hall [] (List.suffix_refl _) p]
  | cons x xs ih =>
    intro hall p
    simp only [searchA, hall (x :: xs) (List.suffix_refl _) p]
    rw [ih (fun s hs q => hall s (hs.trans (List.suffix_cons x xs)) q) (some x)]
    rfl

theorem searchA_skip (ic : Bool) (e : RE) :
    ∀ (a : List Char) (r : List Char) (p : Option Char),
    (∀ b2, b2 ≠ [] → b2.IsSuffix a → ∀ q, matchHere ic e q (b2 ++ r) = none) →
    searchA ic e p (a ++ r) =
      (searchA ic e (lastPrev a p) r).map (fun m => { m with pre := a ++ m.pre }) := by
  intro a
  induction a with
  | nil =>
    intro r p _
    cases h : searchA ic e p r with
    | none => simp [lastPrev, h]
    | some m => simp [lastPrev, h]
  | cons x a' ih =>
    intro r p hfail
    have hm : matchHere ic e p ((x :: a') ++ r) = none :=
      hfail (x :: a') (by simp) (List.suffix_refl _) p
    simp only [List.cons_append] at hm
    show searchA ic e p (x :: (a' ++ r)) = _
    simp only [searchA, hm]
    rw [ih r (some x) (fun b2 hne hsf q => hfail b2 hne (hsf.trans (List.suffix_cons x a')) q)]
    show _ = (searchA ic e (lastPrev a' (some x)) r).map _
    cases searchA ic e (lastPrev a' (some x)) r with
    | none => rfl
    | some m => rfl

theorem findAllAux_step {ic : Bool} {e : RE} {p : Option Char} {r : List Char} {fuel : Nat}
    {m : MRes} (h : searchA ic e p r = some m) (hne : m.mat.isEmpty = false) :
    findAllAux ic e p r (fuel + 1) = m.caps :: findAllAux ic e m.prevA m.rest fuel := by
  simp [findAllAux, h, hne]

theorem findAllAux_nil {ic : Bool} {e : RE} {p : Option Char} {r : List Char} {fuel : Nat}
    (h : searchA ic e p r = none) : findAllAux ic e p r (fuel + 1) = [] := by
  simp [findAllAux, h]

/-! ## Character-level facts for the section analysis -/

/-- Lower-case Latin letter. -/
def lowerAZ (c : Char) : Bool :=
  97 ≤ c.toNat && c.toNat ≤ 122

/-- Lower-case Latin letter or space: the content alphabet of the
three-bullet template. -/
def plainChar (c : Char) : Bool :=
  lowerAZ c || c = ' '

/-- Characters at which the bullet pattern's leading alternation
`(?:•|\*|\-|\d+\.)` can begin a match. -/
def bulletStart (c : Char) : Bool :=
  c = '•' || c = '*' || c = '-' || isDigitChar c

/-- A plain bullet content: at least two characters, starting with a
lower-case letter, the rest lower-case letters and spaces. -/
def goodContent (c : String) : Bool :=
  match c.data with
  | [] => false
  | ch :: cr => lowerAZ ch && !cr.isEmpty && cr.all plainChar

theorem lowerAZ_toNat {c : Char} (h : lowerAZ c = true) :
    97 ≤ c.toNat ∧ c.toNat ≤ 122 := by
  simpa [lowerAZ, Bool.and_eq_true, decide_eq_true_eq] using h

theorem plainChar_toNat {c : Char} (h : plainChar c = true) :
    (97 ≤ c.toNat ∧ c.toNat ≤ 122) ∨ c = ' ' := by
  rcases (by simpa [plainChar, lowerAZ, Bool.and_eq_true, decide_eq_true_eq] using h :
      (97 ≤ c.toNat ∧ c.toNat ≤ 122) ∨ c = ' ') with h' | h'
  · exact .inl h'
  · exact .inr h'

theorem beq_false_of_lower {c : Char} (h' : 97 ≤ c.toNat ∧ c.toNat ≤ 122) (d : Char)
    (hd : d.toNat < 97 ∨ 122 < d.toNat) : (d == c) = false :=
  beq_eq_false_iff_ne.mpr (fun hc => by subst hc; omega)

theorem plainChar_facts {c : Char} (h : plainChar c = true) :
    c ≠ 'R' ∧ c ≠ 'Q' ∧ bulletStart c = false ∧
      clsMatch false (.noneOf ['\n']) c = true ∧ clsMatch false .dotAll c = true := by
  rcases plainChar_toNat h with h' | h'
  · refine ⟨?_, ?_, ?_, ?_, rfl⟩
    · intro hc; subst hc; exact absurd h' (by decide)
    · intro hc; subst hc; exact absurd h' (by decide)
    · simp only [bulletStart, Bool.or_eq_false_iff, decide_eq_false_iff_not, isDigitChar]
      refine ⟨⟨⟨?_, ?_⟩, ?_⟩, ?_⟩
      · intro hc; subst hc; exact absurd h' (by decide)
      · intro hc; subst hc; exact absurd h' (by decide)
      · intro hc; subst hc; exact absurd h' (by decide)
      · simp only [Bool.and_eq_false_iff, decide_eq_false_iff_not]
        omega
    · simp [clsMatch, charEq, beq_false_of_lower h' '\n' (by decide)]
  · subst h'
    refine ⟨by decide, by decide, by decide, by decide, rfl⟩

theorem lowerAZ_facts {c : Char} (h : lowerAZ c = true) :
    pySpace c = false ∧ clsMatch false (.noneOfD ['\n', '•', '*', '-', '.']) c = true ∧
      plainChar c = true := by
  have h' := lowerAZ_toNat h
  refine ⟨?_, ?_, by simp [plainChar, h]⟩
  · simp only [pySpace, Bool.or_eq_false_iff, decide_eq_false_iff_not]
    refine ⟨⟨⟨⟨⟨?_, ?_⟩, ?_⟩, ?_⟩, ?_⟩, ?_⟩ <;>
      (intro hc; subst hc; exact absurd h' (by decide))
  · simp [clsMatch, charEq, isDigitChar, beq_false_of_lower h' '\n' (by decide),
      beq_false_of_lower h' '•' (by decide), beq_false_of_lower h' '*' (by decide),
      beq_false_of_lower h' '-' (by decide), beq_false_of_lower h' '.' (by decide)]
    omega

theorem goodContent_spec {c : String} (h : goodContent c = true) :
    ∃ ch cr, c.data = ch :: cr ∧ lowerAZ ch = true ∧ cr ≠ [] ∧
      (∀ x ∈ cr, plainChar x = true) ∧ (∀ x ∈ c.data, plainChar x = true) := by
  unfold goodContent at h
  cases hd : c.data with
  | nil => rw [hd] at h; exact absurd h (by simp)
  | cons ch cr =>
    rw [hd] at h
    simp only [Bool.and_eq_true] at h
    have h1 : lowerAZ ch = true := h.1.1
    have h2 : cr.isEmpty = false := by
      have := h.1.2
      simpa using this
    have h3 : ∀ x ∈ cr, plainChar x = true := by
      have := h.2
      simpa [List.all_eq_true] using this
    have hne : cr ≠ [] := by
      intro hc
      rw [hc] at h2
      exact absurd h2 (by simp [List.isEmpty])
    refine ⟨ch, cr, rfl, h1, hne, h3, ?_⟩
    intro x hx
    rcases List.mem_cons.mp hx with hx2 | hx2
    · subst hx2; simp [plainChar, h1]
    · exact h3 x hx2

/-- The bullet pattern cannot match at a position whose first character is not
a bullet marker or digit (or at the end of the input). -/
theorem bullet_fail {σ : Type} (k : K σ) (q : Option Char) (cp : Caps) :
    ∀ (r : List Char), (∀ y, r.head? = some y → bulletStart y = false) →
    matchM false bulletPat k q r cp = none := by
  intro r hr
  cases r with
  | nil => rfl
  | cons y ys =>
    have hy : bulletStart y = false := hr y rfl
    simp only [bulletStart, Bool.or_eq_false_iff, decide_eq_false_iff_not] at hy
    obtain ⟨⟨⟨h1, h2⟩, h3⟩, h4⟩ := hy
    simp [bulletPat, seqs, alts, strL, matchM, matchLit, charEq, clsMatch, h4,
      beq_eq_false_iff_ne.mpr (Ne.symm h1), beq_eq_false_iff_ne.mpr (Ne.symm h2),
      beq_eq_false_iff_ne.mpr (Ne.symm h3)]

/-- The section terminator alternation fails at every position that does not
begin with `R` or `Q` and has at least two remaining characters (so that the
`$` alternative also fails). -/
theorem respStop_fail {σ : Type} (k : K σ) (q : Option Char) (cp : Caps) :
    ∀ (r : List Char), (∀ y, r.head? = some y → y ≠ 'R' ∧ y ≠ 'Q') → 2 ≤ r.length →
    matchM false respStopAlt k q r cp = none := by
  intro r hr hlen
  cases r with
  | nil => exact absurd hlen (by simp)
  | cons y ys =>
    cases ys with
    | nil => exact absurd hlen (by simp)
    | cons z zs =>
      obtain ⟨hR, hQ⟩ := hr y rfl
      simp [respStopAlt, alts, strL, matchM, matchLit, charEq,
        beq_eq_false_iff_ne.mpr (Ne.symm hR), beq_eq_false_iff_ne.mpr (Ne.symm hQ)]

/-! ## One-step rewriting forms of the matcher -/

theorem matchM_seqR {ic : Bool} (a b : RE) (k : K σ) (p : Option Char) (r : List Char)
    (cp : Caps) :
    matchM ic (.seqR a b) k p r cp =
      matchM ic a (fun p' r' cp' => matchM ic b k p' r' cp') p r cp := rfl

theorem matchM_alt_first {ic : Bool} {a : RE} (b : RE) {k : K σ} {p : Option Char}
    {r : List Char} {cp : Caps} {res : σ} (h : matchM ic a k p r cp = some res) :
    matchM ic (.altR a b) k p r cp = some res := by
  simp [matchM, h]

theorem matchM_lit_self {ic : Bool} (s : List Char) (k : K σ) (p : Option Char)
    (r : List Char) (cp : Caps) :
    matchM ic (.lit s) k p (s ++ r) cp = k (lastPrev s p) r cp :=
  matchLit_self ic k s r p cp

theorem matchM_star_greedy {ic : Bool} (c : CharCls) (k : K σ) (p : Option Char)
    (r : List Char) (cp : Caps) :
    matchM ic (.starCls true c) k p r cp = greedyStarM ic c k p r cp := rfl

theorem matchM_star_lazy {ic : Bool} (c : CharCls) (k : K σ) (p : Option Char)
    (r : List Char) (cp : Caps) :
    matchM ic (.starCls false c) k p r cp = lazyStarM ic c k p r cp := rfl

theorem matchM_group {ic : Bool} (n : Nat) (a : RE) (k : K σ) (p : Option Char)
    (r : List Char) (cp : Caps) :
    matchM ic (.groupR n a) k p r cp =
      matchM ic a
        (fun p' r' cp' => k p' r' (capSet cp' n (r.take (r.length - r'.length)))) p r cp := rfl

theorem matchM_cls_pos {ic : Bool} {c : CharCls} {x : Char} (h : clsMatch ic c x = true)
    (k : K σ) (p : Option Char) (xs : List Char) (cp : Caps) :
    matchM ic (.cls c) k p (x :: xs) cp = k (some x) xs cp := by
  simp [matchM, h]

theorem matchM_plus_pos {ic : Bool} {c : CharCls} {x : Char} (h : clsMatch ic c x = true)
    (k : K σ) (p : Option Char) (xs : List Char) (cp : Caps) :
    matchM ic (.plusCls true c) k p (x :: xs) cp = greedyStarM ic c k (some x) xs cp := by
  simp [matchM, h]

/-- A bullet line `• <content>` over the plain content alphabet matches the
bullet pattern with the whole content as group 1 and the match ending at the
newline. -/
theorem bullet_matchHere (ch c0 : Char) (cr' rest2 : List Char) (q : Option Char)
    (hch : lowerAZ ch = true) (hc0 : plainChar c0 = true)
    (hplain : ∀ x ∈ cr', plainChar x = true) :
    matchHere false bulletPat q ('•' :: ' ' :: ((ch :: c0 :: cr') ++ '\n' :: rest2)) =
      some (lastPrev cr' (some c0), '\n' :: rest2, [(1, ch :: c0 :: cr')]) := by
  have hcls_ch := (lowerAZ_facts hch).2.1
  have hsp_ch : clsMatch false .space ch = false := (lowerAZ_facts hch).1
  have hnl_c0 : clsMatch false (.noneOf ['\n']) c0 = true := (plainChar_facts hc0).2.2.2.1
  simp only [matchHere, bulletPat, seqs, alts, strL]
  rw [matchM_seqR]
  apply matchM_alt_first
  rw [show ('•' :: ' ' :: ((ch :: c0 :: cr') ++ '\n' :: rest2)) =
    "•".data ++ (' ' :: ((ch :: c0 :: cr') ++ '\n' :: rest2)) from rfl]
  rw [matchM_lit_self]
  try simp only []
  rw [matchM_seqR, matchM_star_greedy]
  rw [show (' ' :: ((ch :: c0 :: cr') ++ '\n' :: rest2)) =
    [' '] ++ ((ch :: c0 :: cr') ++ '\n' :: rest2) from rfl]
  refine greedyStarM_all false .space _ [' '] _ _ (by decide) ?_ _ ?_
  · intro y hy
    simp only [List.cons_append, List.head?] at hy
    have hych : y = ch := ((Option.some.injEq _ _).mp hy).symm
    rw [hych]
    exact hsp_ch
  · simp only [lastPrev]
    rw [matchM_group]
    rw [show ((ch :: c0 :: cr') ++ '\n' :: rest2) = ch :: ((c0 :: cr') ++ '\n' :: rest2)
      from rfl]
    rw [matchM_seqR, matchM_cls_pos hcls_ch]
    try simp only []
    rw [show ((c0 :: cr') ++ '\n' :: rest2) = c0 :: (cr' ++ '\n' :: rest2) from rfl]
    rw [matchM_plus_pos hnl_c0]
    refine greedyStarM_all false _ _ cr' ('\n' :: rest2) _ ?_
      (fun y hy => by
        have hynl : y = '\n' := ((Option.some.injEq _ _).mp (by simpa using hy)).symm
        rw [hynl]
        decide) _ ?_
    · intro x hx
      exact (plainChar_facts (hplain x hx)).2.2.2.1
    · try simp only []
      congr 1
      simp only [capSet]
      have htake : List.take
          ((ch :: c0 :: (cr' ++ '\n' :: rest2)).length - ('\n' :: rest2).length)
          (ch :: c0 :: (cr' ++ '\n' :: rest2)) = ch :: c0 :: cr' := by
        rw [show (ch :: c0 :: (cr' ++ '\n' :: rest2)) =
          (ch :: c0 :: cr') ++ ('\n' :: rest2) from rfl]
        rw [show ((ch :: c0 :: cr') ++ ('\n' :: rest2)).length - ('\n' :: rest2).length =
          (ch :: c0 :: cr').length from by
            simp only [List.length_append, List.length_cons]
            omega]
        exact take_len_append _ _
      rw [htake]

/-! ## The three-bullet responsibilities template -/

/-- A job-description text whose responsibilities section is delimited by
`Responsibilities:` and `Requirements:` and holds exactly three bullet lines,
followed by an arbitrary remainder. -/
def respTemplate (c1 c2 c3 tail : String) : String :=
  "Responsibilities:\n• " ++ c1 ++ "\n• " ++ c2 ++ "\n• " ++ c3 ++ "\nRequirements:" ++ tail

/-- The characters the lazy dot-all run of the section pattern consumes. -/
def aMidC (c1 c2 c3 : String) : List Char :=
  ":\n• ".data ++ c1.data ++ "\n• ".data ++ c2.data ++ "\n• ".data ++ c3.data ++ ['\n']

/-- The characters of the matched section (group 0 of the section search),
grouped for the bullet scan. -/
def secChars (c1 c2 c3 : String) : List Char :=
  "Responsibilities:\n".data ++
    '•' :: ' ' :: (c1.data ++ '\n' ::
      ('•' :: ' ' :: (c2.data ++ '\n' ::
        ('•' :: ' ' :: (c3.data ++ '\n' :: "Requirements".data)))))

theorem respTemplate_split (c1 c2 c3 tail : String) :
    (respTemplate c1 c2 c3 tail).data =
      "Responsibilities".data ++
        (aMidC c1 c2 c3 ++ ("Requirements".data ++ (':' :: tail.data))) := by
  have happ : ∀ a b : String, (a ++ b).data = a.data ++ b.data := fun a b => rfl
  have e0 : "Responsibilities:\n• ".data =
      "Responsibilities".data ++ (':' :: '\n' :: '•' :: ' ' :: []) := by decide
  have e1 : ":\n• ".data = ':' :: '\n' :: '•' :: ' ' :: [] := by decide
  have e2 : "\n• ".data = '\n' :: '•' :: ' ' :: [] := by decide
  have e3 : "\nRequirements:".data = '\n' :: ("Requirements".data ++ [':']) := by decide
  simp [respTemplate, aMidC, happ, e0, e1, e2, e3, List.append_assoc]

theorem secChars_split (c1 c2 c3 tail : String) :
    "Responsibilities".data ++
        (aMidC c1 c2 c3 ++ ("Requirements".data ++ (':' :: tail.data))) =
      secChars c1 c2 c3 ++ (':' :: tail.data) := by
  have e1 : ":\n• ".data = ':' :: '\n' :: '•' :: ' ' :: [] := by decide
  have e2 : "\n• ".data = '\n' :: '•' :: ' ' :: [] := by decide
  have e3 : "Responsibilities:\n".data = "Responsibilities".data ++ (':' :: '\n' :: []) := by
    decide
  simp [secChars, aMidC, e1, e2, e3, List.append_assoc]

theorem aMid_not_RQ {c1 c2 c3 : String}
    (h1 : ∀ x ∈ c1.data, plainChar x = true) (h2 : ∀ x ∈ c2.data, plainChar x = true)
    (h3 : ∀ x ∈ c3.data, plainChar x = true) :
    ∀ x ∈ aMidC c1 c2 c3, x ≠ 'R' ∧ x ≠ 'Q' := by
  intro x hx
  simp only [aMidC, List.mem_append, List.mem_singleton] at hx
  have hconc : ∀ y ∈ ":\n• ".data, y ≠ 'R' ∧ y ≠ 'Q' := by decide
  have hconc2 : ∀ y ∈ "\n• ".data, y ≠ 'R' ∧ y ≠ 'Q' := by decide
  rcases hx with ((((((hx | hx) | hx) | hx) | hx) | hx) | hx)
  · exact hconc x hx
  · exact ⟨(plainChar_facts (h1 x hx)).1, (plainChar_facts (h1 x hx)).2.1⟩
  · exact hconc2 x hx
  · exact ⟨(plainChar_facts (h2 x hx)).1, (plainChar_facts (h2 x hx)).2.1⟩
  · exact hconc2 x hx
  · exact ⟨(plainChar_facts (h3 x hx)).1, (plainChar_facts (h3 x hx)).2.1⟩
  · subst hx; exact ⟨by decide, by decide⟩

theorem head_mem_of_suffix {y : Char} {ys l : List Char} (h : (y :: ys).IsSuffix l) :
    y ∈ l := by
  obtain ⟨t, ht⟩ := h
  rw [← ht]
  exact List.mem_append.mpr (.inr (List.mem_cons_self _ _))

/-- The section search on the template matches at position 0 and captures the
whole section from the header through the `Requirements` terminator. -/
theorem respSection_search (c1 c2 c3 tail : String)
    (h1 : ∀ x ∈ c1.data, plainChar x = true) (h2 : ∀ x ∈ c2.data, plainChar x = true)
    (h3 : ∀ x ∈ c3.data, plainChar x = true) :
    reSearch false respSectionPat (respTemplate c1 c2 c3 tail) =
      some ⟨[], secChars c1 c2 c3, [],
        lastPrev "Requirements".data
          (lastPrev (aMidC c1 c2 c3) (lastPrev "Responsibilities".data none)),
        ':' :: tail.data⟩ := by
  have hmh : matchHere false respSectionPat none
      ("Responsibilities".data ++
        (aMidC c1 c2 c3 ++ ("Requirements".data ++ (':' :: tail.data)))) =
      some (lastPrev "Requirements".data
          (lastPrev (aMidC c1 c2 c3) (lastPrev "Responsibilities".data none)),
        ':' :: tail.data, []) := by
    simp only [matchHere, respSectionPat, seqs, respHdrAlt, respStopAlt, alts, strL]
    rw [matchM_seqR]
    apply matchM_alt_first
    rw [matchM_lit_self]
    try simp only []
    rw [matchM_seqR, matchM_star_lazy]
    refine lazyStarM_stops false .dotAll _ (aMidC c1 c2 c3) _ [] (fun x _ => rfl) ?_ _ ?_
    · intro b2 hne hsf q
      try simp only []
      cases b2 with
      | nil => exact absurd rfl hne
      | cons y ys =>
        have hy := aMid_not_RQ h1 h2 h3 y (head_mem_of_suffix hsf)
        refine respStop_fail _ _ _ _ ?_ ?_
        · intro z hz
          have : z = y := by simpa using hz.symm
          rw [this]
          exact hy
        · simp [List.length_append]
          omega
    · try simp only []
      apply matchM_alt_first
      rw [matchM_lit_self]
  rw [reSearch, respTemplate_split, secChars_split]
  rw [secChars_split] at hmh
  exact searchA_eq_of_matchHere hmh

theorem bullet_matchHere_fail {r : List Char} (q : Option Char)
    (hr : ∀ y, r.head? = some y → bulletStart y = false) :
    matchHere false bulletPat q r = none := by
  simp only [matchHere]
  exact bullet_fail _ _ _ r hr

/-- One step of the bullet scan: a region without bullet markers, then a
bullet line over the plain alphabet; the scan emits the content as group 1
and resumes at the newline. -/
theorem bullet_scan_step (pre : List Char) (hpre : ∀ x ∈ pre, bulletStart x = false)
    (c : String) (ch c0 : Char) (cr' R : List Char) (p : Option Char) (fuel : Nat)
    (hdc : c.data = ch :: c0 :: cr') (hl : lowerAZ ch = true) (hc0 : plainChar c0 = true)
    (hcr : ∀ x ∈ cr', plainChar x = true) :
    findAllAux false bulletPat p (pre ++ ('•' :: ' ' :: (c.data ++ '\n' :: R))) (fuel + 1) =
      [(1, c.data)] :: findAllAux false bulletPat (lastPrev cr' (some c0)) ('\n' :: R) fuel := by
  have hmh : matchHere false bulletPat (lastPrev pre p)
      (('•' :: ' ' :: c.data) ++ ('\n' :: R)) =
      some (lastPrev cr' (some c0), '\n' :: R, [(1, c.data)]) := by
    rw [hdc]
    rw [show (('•' :: ' ' :: (ch :: c0 :: cr')) ++ ('\n' :: R)) =
      ('•' :: ' ' :: ((ch :: c0 :: cr') ++ '\n' :: R)) from rfl]
    exact bullet_matchHere ch c0 cr' R _ hl hc0 hcr
  have hsA : searchA false bulletPat p (pre ++ ('•' :: ' ' :: (c.data ++ '\n' :: R))) =
      some ⟨pre, '•' :: ' ' :: c.data, [(1, c.data)], lastPrev cr' (some c0), '\n' :: R⟩ := by
    rw [searchA_skip false bulletPat pre _ p ?_]
    · rw [show ('•' :: ' ' :: (c.data ++ '\n' :: R)) =
        ('•' :: ' ' :: c.data) ++ ('\n' :: R) from rfl]
      rw [searchA_eq_of_matchHere hmh]
      simp
    · intro b2 hne hsf q
      cases b2 with
      | nil => exact absurd rfl hne
      | cons y ys =>
        refine bullet_matchHere_fail q ?_
        intro z hz
        have hzy : z = y := by simpa using hz.symm
        rw [hzy]
        exact hpre y (head_mem_of_suffix hsf)
  rw [findAllAux_step hsA rfl]

/-- The scan finds nothing in the trailing `\nRequirements` region. -/
theorem bullet_scan_end (p : Option Char) (fuel : Nat) :
    findAllAux false bulletPat p ('\n' :: "Requirements".data) (fuel + 1) = [] := by
  refine findAllAux_nil (searchA_none_of_fail false bulletPat _ ?_ p)
  intro s hsf q
  cases s with
  | nil => exact bullet_matchHere_fail q (by simp)
  | cons y ys =>
    refine bullet_matchHere_fail q ?_
    intro z hz
    have hzy : z = y := by simpa using hz.symm
    rw [hzy]
    have hmem := head_mem_of_suffix hsf
    have hall : ∀ x ∈ '\n' :: "Requirements".data, bulletStart x = false := by decide
    exact hall y hmem

/-- The bullet scan over the matched section returns exactly the three
contents as group-1 captures, in document order. -/
theorem bullets_findAll (c1 c2 c3 : String)
    (h1 : goodContent c1 = true) (h2 : goodContent c2 = true)
    (h3 : goodContent c3 = true) :
    findAll false bulletPat (String.mk (secChars c1 c2 c3)) =
      [[(1, c1.data)], [(1, c2.data)], [(1, c3.data)]] := by
  obtain ⟨ch1, cr1, hd1, hl1, hne1, hp1, _⟩ := goodContent_spec h1
  obtain ⟨ch2, cr2, hd2, hl2, hne2, hp2, _⟩ := goodContent_spec h2
  obtain ⟨ch3, cr3, hd3, hl3, hne3, hp3, _⟩ := goodContent_spec h3
  obtain ⟨c01, cr1', hcr1⟩ := List.exists_cons_of_ne_nil hne1
  obtain ⟨c02, cr2', hcr2⟩ := List.exists_cons_of_ne_nil hne2
  obtain ⟨c03, cr3', hcr3⟩ := List.exists_cons_of_ne_nil hne3
  subst hcr1; subst hcr2; subst hcr3
  have hlen : 3 ≤ (secChars c1 c2 c3).length := by
    simp [secChars, List.length_append]
  obtain ⟨n, hn⟩ : ∃ n, (secChars c1 c2 c3).length = n + 3 :=
    ⟨(secChars c1 c2 c3).length - 3, by omega⟩
  show findAllAux false bulletPat none (String.mk (secChars c1 c2 c3)).data
    ((String.mk (secChars c1 c2 c3)).data.length + 1) = _
  rw [show (String.mk (secChars c1 c2 c3)).data = secChars c1 c2 c3 from rfl, hn]
  rw [show n + 3 + 1 = n + 1 + 1 + 1 + 1 from by omega]
  rw [show secChars c1 c2 c3 = "Responsibilities:\n".data ++
    ('•' :: ' ' :: (c1.data ++ '\n' ::
      ('•' :: ' ' :: (c2.data ++ '\n' ::
        ('•' :: ' ' :: (c3.data ++ '\n' :: "Requirements".data)))))) from rfl]
  rw [bullet_scan_step "Responsibilities:\n".data (by decide) c1 ch1 c01 cr1' _ none _ hd1
    hl1 (hp1 c01 (List.mem_cons_self _ _)) (fun x hx => hp1 x (List.mem_cons_of_mem _ hx))]
  rw [show ('\n' :: ('•' :: ' ' :: (c2.data ++ '\n' ::
      ('•' :: ' ' :: (c3.data ++ '\n' :: "Requirements".data))))) =
    ['\n'] ++ ('•' :: ' ' :: (c2.data ++ '\n' ::
      ('•' :: ' ' :: (c3.data ++ '\n' :: "Requirements".data)))) from rfl]
  rw [bullet_scan_step ['\n'] (by decide) c2 ch2 c02 cr2' _ _ _ hd2
    hl2 (hp2 c02 (List.mem_cons_self _ _)) (fun x hx => hp2 x (List.mem_cons_of_mem _ hx))]
  rw [show ('\n' :: ('•' :: ' ' :: (c3.data ++ '\n' :: "Requirements".data))) =
    ['\n'] ++ ('•' :: ' ' :: (c3.data ++ '\n' :: "Requirements".data)) from rfl]
  rw [bullet_scan_step ['\n'] (by decide) c3 ch3 c03 cr3' _ _ _ hd3
    hl3 (hp3 c03 (List.mem_cons_self _ _)) (fun x hx => hp3 x (List.mem_cons_of_mem _ hx))]
  rw [bullet_scan_end]

/-- C3 (counterexample): the section headers are matched case-sensitively
(the `re.search` call carries no `re.IGNORECASE`), so a lower-case
`duties:`/`requirements:` section yields nothing; and a three-bullet section
whose bullet lines are `•` followed by a single character falls through the
bullet regex (which demands two content characters) into the line-splitting
branch, returning the markers and the trailing `Requirements` word instead of
the three trimmed lines. -/
theorem claim_C3_cex :
    extract_responsibilities "duties: do x\nrequirements: y" = [] ∧
    extract_responsibilities "Responsibilities:\n•A\n•B\n•C\nRequirements:" =
      ["•A", "•B", "•C", "Requirements"] :=
  ⟨by decide, by decide⟩

/-- C3 (amended): the responsibilities section begins at a header matched
case-sensitively against `Responsibilities`/`RESPONSIBILITIES`/`Duties`/
`DUTIES`/`You will` and ends at the next requirements/qualifications header or
end of text; and for every text of the shape `Responsibilities:` followed by
three bullet lines `• <content>` and `Requirements:` plus any remainder —
where each content is at least two characters, starts with a lower-case
letter, and consists of lower-case letters and spaces — the extractor returns
exactly those three bullet contents, trimmed, in document order. -/
theorem claim_C3 (c1 c2 c3 tail : String)
    (h1 : goodContent c1 = true) (h2 : goodContent c2 = true)
    (h3 : goodContent c3 = true) :
    extract_responsibilities (respTemplate c1 c2 c3 tail) =
      [pyStrip c1, pyStrip c2, pyStrip c3] := by
  obtain ⟨_, _, _, _, _, _, hall1⟩ := goodContent_spec h1
  obtain ⟨_, _, _, _, _, _, hall2⟩ := goodContent_spec h2
  obtain ⟨_, _, _, _, _, _, hall3⟩ := goodContent_spec h3
  show (match reSearch false respSectionPat (respTemplate c1 c2 c3 tail) with
    | none => []
    | some m => sectionItems respHeaderPat m.whole) = _
  rw [respSection_search c1 c2 c3 tail hall1 hall2 hall3]
  show sectionItems respHeaderPat (String.mk (secChars c1 c2 c3)) = _
  unfold sectionItems
  rw [bullets_findAll c1 c2 c3 h1 h2 h3]
  simp [capStr, List.lookup]

/-- C3 (witness): the amended statement at a concrete three-bullet section. -/
theorem claim_C3_witness :
    extract_responsibilities
      (respTemplate "build apis" "review code" "mentor juniors" "\n- BS in CS") =
      [pyStrip "build apis", pyStrip "review code", pyStrip "mentor juniors"] :=
  claim_C3 "build apis" "review code" "mentor juniors" "\n- BS in CS"
    (by decide) (by decide) (by decide)

end ATS
